import Mathlib

/-!
Shallow embedding of `src/backend/py_template/devdonalds.py`: an in-memory
recipe cookbook behind two HTTP endpoints, `POST /entry` (create_entry) and
`GET /summary` (get_summary).

Modelling conventions:
* JSON request bodies are values of the inductive `Json`.
* The Python dict `cookbook.entries` (insertion-ordered, unique keys) is an
  association list `List (Json × Entry)`; keys are `Json` because the code
  stores `entry.name`, which for recipes is the raw (truthy) `name` field of
  the payload and so need not be a string.
* Python exceptions that the code does not catch (the `AttributeError` raised
  by `item.get` on a non-dict) are modelled by `Option`: `none` means the
  request handler terminates with an unhandled error instead of a response.
* The unguarded recursion of `flatten_recipe` is modelled with explicit fuel;
  `none` from `flattenItems` means the recursion did not terminate within the
  given depth.
-/

namespace Devdonalds

/-- JSON values, as produced by `request.get_json()`. -/
inductive Json where
  | null : Json
  | bool : Bool → Json
  | int : Int → Json
  | str : String → Json
  | arr : List Json → Json
  | obj : List (String × Json) → Json

mutual

/-- Decidable equality of JSON values. -/
def jsonDecEq : (a b : Json) → Decidable (a = b)
  | .null, .null => isTrue rfl
  | .null, .bool _ => isFalse (fun h => Json.noConfusion h)
  | .null, .int _ => isFalse (fun h => Json.noConfusion h)
  | .null, .str _ => isFalse (fun h => Json.noConfusion h)
  | .null, .arr _ => isFalse (fun h => Json.noConfusion h)
  | .null, .obj _ => isFalse (fun h => Json.noConfusion h)
  | .bool _, .null => isFalse (fun h => Json.noConfusion h)
  | .bool a, .bool b =>
    if h : a = b then isTrue (congrArg Json.bool h)
    else isFalse (fun hh => h (Json.bool.inj hh))
  | .bool _, .int _ => isFalse (fun h => Json.noConfusion h)
  | .bool _, .str _ => isFalse (fun h => Json.noConfusion h)
  | .bool _, .arr _ => isFalse (fun h => Json.noConfusion h)
  | .bool _, .obj _ => isFalse (fun h => Json.noConfusion h)
  | .int _, .null => isFalse (fun h => Json.noConfusion h)
  | .int _, .bool _ => isFalse (fun h => Json.noConfusion h)
  | .int a, .int b =>
    if h : a = b then isTrue (congrArg Json.int h)
    else isFalse (fun hh => h (Json.int.inj hh))
  | .int _, .str _ => isFalse (fun h => Json.noConfusion h)
  | .int _, .arr _ => isFalse (fun h => Json.noConfusion h)
  | .int _, .obj _ => isFalse (fun h => Json.noConfusion h)
  | .str _, .null => isFalse (fun h => Json.noConfusion h)
  | .str _, .bool _ => isFalse (fun h => Json.noConfusion h)
  | .str _, .int _ => isFalse (fun h => Json.noConfusion h)
  | .str a, .str b =>
    if h : a = b then isTrue (congrArg Json.str h)
    else isFalse (fun hh => h (Json.str.inj hh))
  | .str _, .arr _ => isFalse (fun h => Json.noConfusion h)
  | .str _, .obj _ => isFalse (fun h => Json.noConfusion h)
  | .arr _, .null => isFalse (fun h => Json.noConfusion h)
  | .arr _, .bool _ => isFalse (fun h => Json.noConfusion h)
  | .arr _, .int _ => isFalse (fun h => Json.noConfusion h)
  | .arr _, .str _ => isFalse (fun h => Json.noConfusion h)
  | .arr xs, .arr ys =>
    match jsonDecEqList xs ys with
    | isTrue h => isTrue (congrArg Json.arr h)
    | isFalse h => isFalse (fun hh => h (Json.arr.inj hh))
  | .arr _, .obj _ => isFalse (fun h => Json.noConfusion h)
  | .obj _, .null => isFalse (fun h => Json.noConfusion h)
  | .obj _, .bool _ => isFalse (fun h => Json.noConfusion h)
  | .obj _, .int _ => isFalse (fun h => Json.noConfusion h)
  | .obj _, .str _ => isFalse (fun h => Json.noConfusion h)
  | .obj _, .arr _ => isFalse (fun h => Json.noConfusion h)
  | .obj xs, .obj ys =>
    match jsonDecEqFields xs ys with
    | isTrue h => isTrue (congrArg Json.obj h)
    | isFalse h => isFalse (fun hh => h (Json.obj.inj hh))

/-- Decidable equality of JSON value lists. -/
def jsonDecEqList : (xs ys : List Json) → Decidable (xs = ys)
  | [], [] => isTrue rfl
  | [], _ :: _ => isFalse (fun h => List.noConfusion h)
  | _ :: _, [] => isFalse (fun h => List.noConfusion h)
  | x :: xs, y :: ys =>
    match jsonDecEq x y with
    | isFalse h => isFalse (by intro hh; injection hh; contradiction)
    | isTrue h1 =>
      match jsonDecEqList xs ys with
      | isTrue h2 => isTrue (by rw [h1, h2])
      | isFalse h2 => isFalse (by intro hh; injection hh; contradiction)

/-- Decidable equality of JSON object field lists. -/
def jsonDecEqFields : (xs ys : List (String × Json)) → Decidable (xs = ys)
  | [], [] => isTrue rfl
  | [], _ :: _ => isFalse (fun h => List.noConfusion h)
  | _ :: _, [] => isFalse (fun h => List.noConfusion h)
  | (k, v) :: xs, (k', v') :: ys =>
    if hk : k = k' then
      match jsonDecEq v v' with
      | isFalse h => isFalse (by intro hh; injection hh with hh1 hh2; injection hh1; contradiction)
      | isTrue h1 =>
        match jsonDecEqFields xs ys with
        | isTrue h2 => isTrue (by rw [hk, h1, h2])
        | isFalse h2 => isFalse (by intro hh; injection hh; contradiction)
    else isFalse (by intro hh; injection hh with hh1 hh2; injection hh1; contradiction)

end

instance : DecidableEq Json := jsonDecEq

/-- Python truthiness of a JSON value (`if not x`). -/
def truthy : Json → Bool
  | .null => false
  | .bool b => b
  | .int n => n != 0
  | .str s => s != ""
  | .arr xs => !xs.isEmpty
  | .obj fs => !fs.isEmpty

/-- Field lookup in a JSON object's field list; a missing key yields `null`,
mirroring Python's `dict.get` default. Field lists are assumed unique-keyed,
as Python's JSON parsing collapses duplicate keys before `.get` ever runs. -/
def jlookup : List (String × Json) → String → Json
  | [], _ => .null
  | (k', v) :: rest, k => if k' = k then v else jlookup rest k

/-- `x.get(key)` on a JSON value: defined only on objects; on anything else
Python raises `AttributeError`, modelled as `none`. -/
def jsonGet : Json → String → Option Json
  | .obj fs, k => some (jlookup fs k)
  | _, _ => none

/-- `isinstance(x, int)` plus the integer value: Python's `bool` is a subclass
of `int`, so `True`/`False` count as `1`/`0`. -/
def pyInt : Json → Option Int
  | .int n => some n
  | .bool b => some (if b then 1 else 0)
  | _ => none

/-- A validated required item of a recipe (`RequiredItem` dataclass). -/
structure RequiredItem where
  name : String
  quantity : Int
  deriving DecidableEq

/-- A cookbook entry (`Ingredient` / `Recipe` dataclasses). The `name` field is
whatever value the code put there, hence `Json`. -/
inductive Entry where
  | ingredient (name : Json) (cook_time : Int) : Entry
  | recipe (name : Json) (required_items : List RequiredItem) : Entry
  deriving DecidableEq

/-- `entry.name`. -/
def Entry.name : Entry → Json
  | .ingredient n _ => n
  | .recipe n _ => n

/-- The `cookbook.entries` dict: insertion-ordered association list. -/
abbrev Cookbook := List (Json × Entry)

/-- Dict lookup `self.entries[name]` / membership `name in self.entries`. -/
def lookupEntry : Cookbook → Json → Option Entry
  | [], _ => none
  | (k, e) :: rest, k' => if k = k' then some e else lookupEntry rest k'

/-- `Cookbook.add_entry`: raises `ValueError` (here `.error`) when the name is
already a key, otherwise inserts at the end (dict insertion order). -/
def add_entry (cb : Cookbook) (entry : Entry) : Except String Cookbook :=
  if (lookupEntry cb entry.name).isSome then
    .error "already exists"
  else
    .ok (cb ++ [(entry.name, entry)])

/-- The validation loop over `requiredItems` in `create_entry`: builds the
`RequiredItem` list while tracking `seen_names`. `none` models the
`AttributeError` from `item.get` on a non-object element; `.error` models the
`return Response(status=400)` exits. -/
def parseItems : List Json → List String → List RequiredItem →
    Option (Except Unit (List RequiredItem))
  | [], _, acc => some (.ok acc)
  | item :: rest, seen, acc =>
    match jsonGet item "name", jsonGet item "quantity" with
    | some item_name, some quantity =>
      if ¬ truthy item_name then some (.error ())
      else
        match item_name with
        | .str s =>
          match pyInt quantity with
          | none => some (.error ())
          | some q =>
            if s ∈ seen then some (.error ())
            else parseItems rest (s :: seen) (acc ++ [⟨s, q⟩])
        | _ => some (.error ())
    | _, _ => none

/-- `POST /entry` (`create_entry`): returns `some (status, cookbook')`, or
`none` when the handler dies with an unhandled `AttributeError`. -/
def create_entry (data : Json) (cb : Cookbook) : Option (Nat × Cookbook) :=
  if data = Json.null then some (400, cb)
  else
    match jsonGet data "type" with
    | none => none
    | some entry_type =>
      if entry_type ≠ Json.str "recipe" ∧ entry_type ≠ Json.str "ingredient" then
        some (400, cb)
      else
        match jsonGet data "name" with
        | none => none
        | some entry_name =>
          if ¬ truthy entry_name then some (400, cb)
          else if entry_type = Json.str "ingredient" then
            match jsonGet data "cookTime" with
            | none => none
            | some ct =>
              match pyInt ct with
              | none => some (400, cb)
              | some cook_time =>
                if cook_time < 0 then some (400, cb)
                else
                  match add_entry cb (.ingredient entry_type cook_time) with
                  | .error _ => some (400, cb)
                  | .ok cb' => some (200, cb')
          else
            match jsonGet data "requiredItems" with
            | none => none
            | some ri =>
              match ri with
              | .arr items =>
                match parseItems items [] [] with
                | none => none
                | some (.error _) => some (400, cb)
                | some (.ok objs) =>
                  match add_entry cb (.recipe entry_name objs) with
                  | .error _ => some (400, cb)
                  | .ok cb' => some (200, cb')
              | _ => some (400, cb)

/-- The `flat` dict of `flatten_recipe`: `flat[k] = flat.get(k, 0) + v`
updates in place when the key exists, else appends. -/
def dictAdd : List (Json × Int) → Json → Int → List (Json × Int)
  | [], k, v => [(k, v)]
  | (k', v') :: rest, k, v =>
    if k' = k then (k', v' + v) :: rest else (k', v') :: dictAdd rest k v

/-- Merging `sub_flat` into `flat`, in `sub_flat`'s iteration order. -/
def mergeFlat (flat : List (Json × Int)) : List (Json × Int) → List (Json × Int)
  | [] => flat
  | (k, v) :: rest => mergeFlat (dictAdd flat k v) rest

/-- The body of `flatten_recipe`, processing the `required_items` list with the
current `multiplier` and accumulator `flat`. Fuel bounds the number of steps of
the (unguarded, possibly divergent) recursion; `none` means the fuel ran out —
the Python code would still be running at that depth budget. `.error` models
the raised `ValueError` for a missing reference. -/
def flattenItems (cb : Cookbook) : Nat → List RequiredItem → Int →
    List (Json × Int) → Option (Except Unit (List (Json × Int)))
  | 0, _, _, _ => none
  | _ + 1, [], _, flat => some (.ok flat)
  | fuel + 1, req :: rest, mult, flat =>
    match lookupEntry cb (.str req.name) with
    | none => some (.error ())
    | some (.ingredient iname _) =>
      flattenItems cb fuel rest mult (dictAdd flat iname (req.quantity * mult))
    | some (.recipe _ sub) =>
      match flattenItems cb fuel sub (req.quantity * mult) [] with
      | none => none
      | some (.error e) => some (.error e)
      | some (.ok subFlat) =>
        flattenItems cb fuel rest mult (mergeFlat flat subFlat)

/-- The post-flattening loop of `get_summary`: accumulates
`total_cook_time` and `ingredients_list` over the flattened dict, failing if a
key is absent from the cookbook or not an `Ingredient`. -/
def computeTotals (cb : Cookbook) : List (Json × Int) → Int →
    List (Json × Int) → Except Unit (Int × List (Json × Int))
  | [], total, out => .ok (total, out)
  | (n, q) :: rest, total, out =>
    match lookupEntry cb n with
    | some (.ingredient _ ct) => computeTotals cb rest (total + ct * q) (out ++ [(n, q)])
    | _ => .error ()

/-- Outcome of `GET /summary`: a 400 response, or a 200 response carrying the
summary fields. -/
inductive Summary where
  | bad : Summary
  | ok (name : String) (cookTime : Int) (ingredients : List (Json × Int)) : Summary
  deriving DecidableEq

/-- `GET /summary` (`get_summary`): `qname` is `request.args.get("name")`;
`none` overall means the flattening recursion exceeded the fuel. -/
def get_summary (cb : Cookbook) (qname : Option String) (fuel : Nat) :
    Option Summary :=
  match qname with
  | none => some .bad
  | some rn =>
    if rn = "" then some .bad
    else
      match lookupEntry cb (.str rn) with
      | none => some .bad
      | some (.ingredient _ _) => some .bad
      | some (.recipe _ items) =>
        match flattenItems cb fuel items 1 [] with
        | none => none
        | some (.error _) => some .bad
        | some (.ok flat) =>
          match computeTotals cb flat 0 [] with
          | .error _ => some .bad
          | .ok (total, ings) => some (.ok rn total ings)

/-! ### Derived notions used by the verification -/

/-- `name in cookbook.entries`. -/
def hasKey (cb : Cookbook) (k : Json) : Bool :=
  (lookupEntry cb k).isSome

/-- Whether an entry is an `Ingredient` (`isinstance(entry, Ingredient)`). -/
def Entry.isIngredient : Entry → Bool
  | .ingredient _ _ => true
  | .recipe _ _ => false

/-- The registry after one `POST /entry` request. When the handler dies with
the unhandled `AttributeError` no mutation has happened yet (the exception is
raised while validating, before `add_entry`), so the registry keeps its
state. -/
def applyRequest (cb : Cookbook) (d : Json) : Cookbook :=
  match create_entry d cb with
  | some (_, cb') => cb'
  | none => cb

/-- The registry reached from the empty registry by a sequence of
`POST /entry` requests. -/
def runRequests (ds : List Json) : Cookbook :=
  ds.foldl applyRequest []

/-- The registry after one direct `Cookbook.add_entry` call; the raised
`ValueError` leaves `self.entries` untouched. -/
def insertStep (cb : Cookbook) (e : Entry) : Cookbook :=
  match add_entry cb e with
  | .ok cb' => cb'
  | .error _ => cb

/-- The registry reached from the empty registry by a sequence of
`Cookbook.add_entry` calls. -/
def runInserts (es : List Entry) : Cookbook :=
  es.foldl insertStep []

/-- No two entries of the registry share a name (dict keys are unique). -/
def keysNodup (cb : Cookbook) : Prop :=
  (cb.map Prod.fst).Nodup

/-- Multiply every quantity of a flattened accumulator by `m`. -/
def scaleFlat (m : Int) (flat : List (Json × Int)) : List (Json × Int) :=
  flat.map (fun p => (p.1, p.2 * m))

/-- A required-items list transitively reaches a name that is not a key of the
registry (following references through the recipes stored in it). -/
inductive ReachesMissing (cb : Cookbook) : List RequiredItem → Prop
  | here {items : List RequiredItem} (req : RequiredItem) :
      req ∈ items → lookupEntry cb (.str req.name) = none →
      ReachesMissing cb items
  | there {items : List RequiredItem} (req : RequiredItem) (n : Json)
      (sub : List RequiredItem) :
      req ∈ items → lookupEntry cb (.str req.name) = some (.recipe n sub) →
      ReachesMissing cb sub → ReachesMissing cb items

/-- The recipe-reference graph of the registry: `refsTo cb a b` when the key
`a` holds a recipe one of whose required items is named `b`. -/
def refsTo (cb : Cookbook) (a b : String) : Prop :=
  ∃ n items, lookupEntry cb (.str a) = some (.recipe n items) ∧
    ∃ req ∈ items, req.name = b

/-- The recipe-reference graph has no (nonempty) cycle. -/
def Acyclic (cb : Cookbook) : Prop :=
  ∀ a, ¬ Relation.TransGen (refsTo cb) a a

/-- The string keys of the registry that hold recipes. -/
def recipeKeys (cb : Cookbook) : List String :=
  cb.filterMap (fun p =>
    match p with
    | (Json.str s, Entry.recipe _ _) => some s
    | _ => none)

/-- `POST /entry` payload creating ingredient `Egg` with `cookTime` 5. -/
def eggRequest : Json :=
  .obj [("type", .str "ingredient"), ("name", .str "Egg"), ("cookTime", .int 5)]

/-- `POST /entry` payload creating recipe `Omelette` requiring `Egg` × 2. -/
def omeletteRequest : Json :=
  .obj [("type", .str "recipe"), ("name", .str "Omelette"),
    ("requiredItems", .arr [.obj [("name", .str "Egg"), ("quantity", .int 2)]])]

/-- `POST /entry` payload creating recipe `BigOmelette` requiring
`Omelette` × 2. -/
def bigOmeletteRequest : Json :=
  .obj [("type", .str "recipe"), ("name", .str "BigOmelette"),
    ("requiredItems", .arr [.obj [("name", .str "Omelette"), ("quantity", .int 2)]])]

/-- Registry after the `eggRequest` request hits the empty registry. -/
def cbAfterEgg : Cookbook := applyRequest [] eggRequest

/-- Registry after `eggRequest` then `omeletteRequest`. -/
def cbAfterOmelette : Cookbook := applyRequest cbAfterEgg omeletteRequest

/-- Registry after `eggRequest`, `omeletteRequest`, `bigOmeletteRequest`. -/
def cbAfterBigOmelette : Cookbook := applyRequest cbAfterOmelette bigOmeletteRequest

/-- A registrable recipe that requires itself before a missing name: `R` with
`requiredItems` `[R × 1, X × 1]` (`X` never inserted). -/
def selfLoopRecipe : Entry := Entry.recipe (Json.str "R") [⟨"R", 1⟩, ⟨"X", 1⟩]

/-- The registry holding only `selfLoopRecipe`, under the key `"R"`. -/
def selfLoopCb : Cookbook := [(Json.str "R", selfLoopRecipe)]

end Devdonalds

namespace Devdonalds

/-! ### Helper lemmas -/

theorem lookupEntry_eq_none_iff (cb : Cookbook) (k : Json) :
    lookupEntry cb k = none ↔ k ∉ cb.map Prod.fst := by
  induction cb with
  | nil => simp [lookupEntry]
  | cons p rest ih =>
    obtain ⟨k', e⟩ := p
    by_cases h : k' = k
    · subst h
      simp [lookupEntry]
    · simp only [lookupEntry, if_neg h, List.map_cons, List.mem_cons, ih]
      constructor
      · intro hn hor
        rcases hor with h1 | h2
        · exact h h1.symm
        · exact hn h2
      · intro hn h2
        exact hn (Or.inr h2)

/-- Exactly what `create_entry` can do to the registry: crash before any
mutation, refuse with 400 and no mutation, or succeed with 200 appending one
entry whose key was free — and an appended ingredient is always stored under
the key `"ingredient"`. -/
theorem create_entry_structure (d : Json) (cb : Cookbook) :
    create_entry d cb = none ∨
    create_entry d cb = some (400, cb) ∨
    ∃ e : Entry, lookupEntry cb e.name = none ∧
      create_entry d cb = some (200, cb ++ [(e.name, e)]) ∧
      (e.isIngredient = true → e.name = Json.str "ingredient") := by
  unfold create_entry add_entry
  repeat' split
  all_goals try exact Or.inl rfl
  all_goals try exact Or.inr (Or.inl rfl)
  all_goals
    rename_i cb' hadd
    split at hadd
    · exact absurd hadd (by simp)
    · rename_i hfree
      injection hadd with hcb
      subst hcb
      refine Or.inr (Or.inr ⟨_, Option.not_isSome_iff_eq_none.mp hfree, rfl, ?_⟩)
      first
      | (intro _; assumption)
      | (intro hi; simp [Entry.isIngredient] at hi)

theorem add_entry_free (cb : Cookbook) (e : Entry)
    (h : lookupEntry cb e.name = none) :
    add_entry cb e = Except.ok (cb ++ [(e.name, e)]) := by
  unfold add_entry
  rw [if_neg (by simp [h])]

theorem keysNodup_append (cb : Cookbook) (e : Entry)
    (hfree : lookupEntry cb e.name = none) (h : keysNodup cb) :
    keysNodup (cb ++ [(e.name, e)]) := by
  unfold keysNodup at *
  rw [List.map_append, List.nodup_append]
  refine ⟨h, by simp, ?_⟩
  intro a ha hb
  simp at hb
  subst hb
  exact (lookupEntry_eq_none_iff cb e.name).mp hfree ha

theorem keysNodup_insertStep (cb : Cookbook) (e : Entry) (h : keysNodup cb) :
    keysNodup (insertStep cb e) := by
  unfold insertStep
  cases hfree : lookupEntry cb e.name with
  | none =>
    rw [add_entry_free cb e hfree]
    exact keysNodup_append cb e hfree h
  | some e' =>
    have : add_entry cb e = Except.error "already exists" := by
      unfold add_entry
      rw [if_pos (by simp [hfree])]
    rw [this]
    exact h

theorem length_le_one_of_nodup_const {α : Type} (l : List α) (a : α)
    (hnd : l.Nodup) (hall : ∀ x ∈ l, x = a) : l.length ≤ 1 := by
  match l, hnd, hall with
  | [], _, _ => simp
  | [x], _, _ => simp
  | x :: y :: rest, hnd, hall =>
    exfalso
    have hx := hall x (by simp)
    have hy := hall y (by simp)
    rw [List.nodup_cons] at hnd
    exact hnd.1 (by simp [hx, hy])

/-- The uniqueness/ingredient-key invariant holds in every registry reachable
by `POST /entry` requests from the empty one. -/
theorem runRequests_invariant (ds : List Json) :
    keysNodup (runRequests ds) ∧
    ∀ p ∈ runRequests ds, p.2.isIngredient = true → p.1 = Json.str "ingredient" := by
  unfold runRequests
  have main : ∀ cb : Cookbook, keysNodup cb →
      (∀ p ∈ cb, p.2.isIngredient = true → p.1 = Json.str "ingredient") →
      keysNodup (ds.foldl applyRequest cb) ∧
      ∀ p ∈ ds.foldl applyRequest cb, p.2.isIngredient = true → p.1 = Json.str "ingredient" := by
    induction ds with
    | nil => exact fun cb h1 h2 => ⟨h1, h2⟩
    | cons d rest ih =>
      intro cb h1 h2
      rw [List.foldl_cons]
      have step : keysNodup (applyRequest cb d) ∧
          ∀ p ∈ applyRequest cb d, p.2.isIngredient = true → p.1 = Json.str "ingredient" := by
        unfold applyRequest
        rcases create_entry_structure d cb with h0 | h0 | ⟨e, hfree, h0, hing⟩
        · rw [h0]
          exact ⟨h1, h2⟩
        · rw [h0]
          exact ⟨h1, h2⟩
        · rw [h0]
          refine ⟨keysNodup_append cb e hfree h1, ?_⟩
          intro p hp hpi
          rcases List.mem_append.mp hp with hp1 | hp2
          · exact h2 p hp1 hpi
          · have : p = (e.name, e) := by simpa using hp2
            subst this
            exact hing hpi
      exact ih _ step.1 step.2
  exact main [] (by simp [keysNodup]) (by simp)

/-! ### Claim theorems -/

/-- C2 (what the code actually does at the claimed property's failing input):
the `POST /entry` ingredient payload for name `Egg`, `cookTime` 5 gets a 200
response, but the registry afterwards has no entry under the key `Egg` — the
code stored the entry under the key `"ingredient"` (it passes `entry_type`
instead of `entry_name` to the `Ingredient` constructor). -/
theorem ingredient_stored_under_type_key :
    create_entry eggRequest [] =
      some (200, [(Json.str "ingredient", Entry.ingredient (Json.str "ingredient") 5)]) ∧
    lookupEntry (runRequests [eggRequest]) (Json.str "Egg") = none ∧
    lookupEntry (runRequests [eggRequest]) (Json.str "ingredient") =
      some (Entry.ingredient (Json.str "ingredient") 5) :=
  ⟨rfl, rfl, rfl⟩

/-- C4 (what the code actually does at the claimed property's failing input):
a recipe payload whose `requiredItems` list contains a non-object element
makes `create_entry` die with an unhandled `AttributeError` (`item.get` on a
string), instead of returning a 400 response. -/
theorem malformed_required_item_crashes :
    create_entry (Json.obj [("type", Json.str "recipe"), ("name", Json.str "R"),
      ("requiredItems", Json.arr [Json.str "x"])]) [] = none :=
  rfl

/-- C5: registries built by any sequence of `add_entry` calls never have two
entries sharing a name, and an insertion whose name is already present
reports failure (raises) and leaves the registry unchanged. -/
theorem registry_names_unique :
    (∀ es : List Entry, keysNodup (runInserts es)) ∧
    (∀ (cb : Cookbook) (e : Entry), hasKey cb e.name = true →
      add_entry cb e = Except.error "already exists" ∧ insertStep cb e = cb) := by
  constructor
  · intro es
    unfold runInserts
    have main : ∀ cb : Cookbook, keysNodup cb → keysNodup (es.foldl insertStep cb) := by
      induction es with
      | nil => exact fun cb h => h
      | cons e rest ih => exact fun cb h => ih _ (keysNodup_insertStep cb e h)
    exact main [] (by simp [keysNodup])
  · intro cb e h
    unfold hasKey at h
    have herr : add_entry cb e = Except.error "already exists" := by
      unfold add_entry
      rw [if_pos h]
    refine ⟨herr, ?_⟩
    unfold insertStep
    rw [herr]

/-- C5 witness: a concrete duplicate insertion is refused. -/
theorem registry_names_unique_witness :
    keysNodup (runInserts [Entry.ingredient (Json.str "ingredient") 5,
      Entry.ingredient (Json.str "ingredient") 7]) ∧
    add_entry [(Json.str "ingredient", Entry.ingredient (Json.str "ingredient") 5)]
      (Entry.ingredient (Json.str "ingredient") 7) = Except.error "already exists" :=
  ⟨registry_names_unique.1 _,
    (registry_names_unique.2
      [(Json.str "ingredient", Entry.ingredient (Json.str "ingredient") 5)]
      (Entry.ingredient (Json.str "ingredient") 7) rfl).1⟩

/-- C6: every `POST /entry` request answered with 400 leaves the registry
exactly as it was. -/
theorem entry_400_leaves_registry_unchanged (d : Json) (cb cb' : Cookbook)
    (h : create_entry d cb = some (400, cb')) : cb' = cb := by
  rcases create_entry_structure d cb with h0 | h0 | ⟨e, -, h0, -⟩
  · rw [h0] at h
    exact absurd h (by simp)
  · rw [h0] at h
    simp at h
    exact h.symm
  · rw [h0] at h
    simp at h

/-- C6 witness: a concrete rejected request, registry untouched. -/
theorem entry_400_unchanged_witness :
    create_entry (Json.obj [("type", Json.str "pasta")]) [] = some (400, []) ∧
    ([] : Cookbook) = [] :=
  ⟨rfl, entry_400_leaves_registry_unchanged (Json.obj [("type", Json.str "pasta")]) [] [] rfl⟩

/-- C8 counterexample: a recipe payload whose `name` is the number 5 — not a
string — is accepted with 200 and stored under the key `5`, because the code
only checks the field for truthiness, never `isinstance(str)`. -/
theorem nonstring_name_accepted :
    create_entry (Json.obj [("type", Json.str "recipe"), ("name", Json.int 5),
      ("requiredItems", Json.arr [])]) [] =
      some (200, [(Json.int 5, Entry.recipe (Json.int 5) [])]) :=
  rfl

/-- C8 (amended): a `POST /entry` object payload whose `name` field is missing
or falsy (null, `""`, 0, `false`, empty array/object) is answered 400 with the
registry unchanged. -/
theorem falsy_name_rejected (fields : List (String × Json)) (cb : Cookbook)
    (h : truthy (jlookup fields "name") = false) :
    create_entry (Json.obj fields) cb = some (400, cb) := by
  by_cases ht : (jlookup fields "type") ≠ Json.str "recipe" ∧
      (jlookup fields "type") ≠ Json.str "ingredient"
  · simp [create_entry, jsonGet, ht]
  · simp [create_entry, jsonGet, ht, h]

/-- C8 witness: a concrete payload with no `name` field is refused. -/
theorem falsy_name_rejected_witness :
    truthy (jlookup [("type", Json.str "recipe")] "name") = false ∧
    create_entry (Json.obj [("type", Json.str "recipe")]) [] = some (400, []) :=
  ⟨rfl, falsy_name_rejected [("type", Json.str "recipe")] [] rfl⟩

/-- C3: in every registry reachable from the empty one, every `Ingredient`
entry sits under the key `"ingredient"`, there is at most one such entry, and
once the key `"ingredient"` is taken every later `POST /entry` of type
`"ingredient"` is answered 400 with the registry unchanged. -/
theorem ingredient_key_invariant (ds : List Json) (d : Json) :
    (∀ p ∈ runRequests ds, p.2.isIngredient = true → p.1 = Json.str "ingredient") ∧
    ((runRequests ds).filter (fun p => p.2.isIngredient)).length ≤ 1 ∧
    (hasKey (runRequests ds) (Json.str "ingredient") = true →
      jsonGet d "type" = some (Json.str "ingredient") →
      create_entry d (runRequests ds) = some (400, runRequests ds)) := by
  obtain ⟨hnd, hinv⟩ := runRequests_invariant ds
  refine ⟨hinv, ?_, ?_⟩
  · have hsub : ((runRequests ds).filter (fun p => p.2.isIngredient)).Sublist
        (runRequests ds) := List.filter_sublist _
    have hnd2 : (((runRequests ds).filter (fun p => p.2.isIngredient)).map
        Prod.fst).Nodup := List.Nodup.sublist (hsub.map Prod.fst) hnd
    have hlen := length_le_one_of_nodup_const
      (((runRequests ds).filter (fun p => p.2.isIngredient)).map Prod.fst)
      (Json.str "ingredient") hnd2 ?_
    · simpa using hlen
    · intro x hx
      rw [List.mem_map] at hx
      obtain ⟨p, hp, rfl⟩ := hx
      rw [List.mem_filter] at hp
      exact hinv p hp.1 (by simpa using hp.2)
  · intro hkey htype
    cases d with
    | null => simp [jsonGet] at htype
    | bool b => simp [jsonGet] at htype
    | int n => simp [jsonGet] at htype
    | str s => simp [jsonGet] at htype
    | arr xs => simp [jsonGet] at htype
    | obj fields =>
      simp only [jsonGet, Option.some.injEq] at htype
      have hlook : (lookupEntry (runRequests ds)
          (Entry.ingredient (jlookup fields "type") 0).name).isSome = true := by
        simpa [Entry.name, hasKey, htype] using hkey
      by_cases hname : truthy (jlookup fields "name") = true
      · cases hpy : pyInt (jlookup fields "cookTime") with
        | none => simp [create_entry, jsonGet, htype, hname, hpy]
        | some ct =>
          by_cases hneg : ct < 0
          · simp [create_entry, jsonGet, htype, hname, hpy, hneg]
          · have hsome : (lookupEntry (runRequests ds) (Json.str "ingredient")).isSome = true := by
              simpa [hasKey] using hkey
            simp [create_entry, jsonGet, htype, hname, hpy, hneg, add_entry, Entry.name, hsome]
      · simp [create_entry, jsonGet, htype, hname]

/-- C3 witness: after one successful ingredient creation, a second ingredient
payload with a different name is refused. -/
theorem ingredient_key_invariant_witness :
    hasKey (runRequests [eggRequest]) (Json.str "ingredient") = true ∧
    jsonGet (Json.obj [("type", Json.str "ingredient"), ("name", Json.str "Salt"),
      ("cookTime", Json.int 1)]) "type" = some (Json.str "ingredient") ∧
    create_entry (Json.obj [("type", Json.str "ingredient"), ("name", Json.str "Salt"),
      ("cookTime", Json.int 1)]) (runRequests [eggRequest]) =
      some (400, runRequests [eggRequest]) :=
  ⟨rfl, rfl,
    (ingredient_key_invariant [eggRequest]
      (Json.obj [("type", Json.str "ingredient"), ("name", Json.str "Salt"),
        ("cookTime", Json.int 1)])).2.2 rfl rfl⟩

/-- C1 (what the code actually does on the spec's nested example): creating
Egg (cookTime 5), Omelette (Egg × 2) and BigOmelette (Omelette × 2) all
return 200, but `GET /summary?name=BigOmelette` then returns 400 at every
recursion budget — the claimed 200 body never appears, because Egg was stored
under the key `"ingredient"` and the flattener cannot resolve `Egg`. -/
theorem nested_example_summary_returns_400 :
    create_entry eggRequest [] = some (200, cbAfterEgg) ∧
    create_entry omeletteRequest cbAfterEgg = some (200, cbAfterOmelette) ∧
    create_entry bigOmeletteRequest cbAfterOmelette = some (200, cbAfterBigOmelette) ∧
    (∀ fuel : Nat,
      get_summary cbAfterBigOmelette (some "BigOmelette") (fuel + 2) = some Summary.bad) ∧
    ∀ (fuel : Nat) (res : Summary),
      get_summary cbAfterBigOmelette (some "BigOmelette") fuel = some res →
      res = Summary.bad :=
  ⟨rfl, rfl, rfl, fun _ => rfl, fun fuel res hres => by
    match fuel, hres with
    | 0, hres => exact Option.noConfusion hres
    | 1, hres => exact Option.noConfusion hres
    | (f + 2), hres =>
      rw [show get_summary cbAfterBigOmelette (some "BigOmelette") (f + 2) =
        some Summary.bad from rfl] at hres
      exact (Option.some.inj hres).symm⟩

theorem dictAdd_scale (m : Int) (flat : List (Json × Int)) (k : Json) (v : Int) :
    dictAdd (scaleFlat m flat) k (v * m) = scaleFlat m (dictAdd flat k v) := by
  induction flat with
  | nil => simp [dictAdd, scaleFlat]
  | cons p rest ih =>
    obtain ⟨k', v'⟩ := p
    by_cases h : k' = k
    · show dictAdd ((k', v' * m) :: scaleFlat m rest) k (v * m) = scaleFlat m (dictAdd ((k', v') :: rest) k v)
      rw [dictAdd, if_pos h, dictAdd, if_pos h]
      show (k', v' * m + v * m) :: scaleFlat m rest = (k', (v' + v) * m) :: scaleFlat m rest
      rw [add_mul]
    · show dictAdd ((k', v' * m) :: scaleFlat m rest) k (v * m) = scaleFlat m (dictAdd ((k', v') :: rest) k v)
      rw [dictAdd, if_neg h, dictAdd, if_neg h]
      show (k', v' * m) :: dictAdd (scaleFlat m rest) k (v * m) = (k', v' * m) :: scaleFlat m (dictAdd rest k v)
      rw [ih]

theorem mergeFlat_scale (m : Int) (sub : List (Json × Int)) :
    ∀ flat : List (Json × Int),
      mergeFlat (scaleFlat m flat) (scaleFlat m sub) = scaleFlat m (mergeFlat flat sub) := by
  induction sub with
  | nil => intro flat; rfl
  | cons p rest ih =>
    intro flat
    obtain ⟨k, v⟩ := p
    show mergeFlat (scaleFlat m flat) ((k, v * m) :: scaleFlat m rest) = scaleFlat m (mergeFlat flat ((k, v) :: rest))
    rw [mergeFlat, dictAdd_scale, mergeFlat]
    exact ih (dictAdd flat k v)

theorem flattenItems_scale (cb : Cookbook) (m : Int) :
    ∀ (fuel : Nat) (items : List RequiredItem) (a : Int) (acc : List (Json × Int)),
      flattenItems cb fuel items (a * m) (scaleFlat m acc) =
        Option.map (Except.map (scaleFlat m)) (flattenItems cb fuel items a acc) := by
  intro fuel
  induction fuel with
  | zero => intro items a acc; rfl
  | succ fuel ih =>
    intro items a acc
    cases items with
    | nil => rfl
    | cons req rest =>
      simp only [flattenItems]
      cases hl : lookupEntry cb (Json.str req.name) with
      | none => rfl
      | some e =>
        cases e with
        | ingredient iname ct =>
          show flattenItems cb fuel rest (a * m) (dictAdd (scaleFlat m acc) iname (req.quantity * (a * m))) =
            Option.map (Except.map (scaleFlat m)) (flattenItems cb fuel rest a (dictAdd acc iname (req.quantity * a)))
          rw [show req.quantity * (a * m) = (req.quantity * a) * m from by ring, dictAdd_scale]
          exact ih rest a (dictAdd acc iname (req.quantity * a))
        | recipe n sub =>
          show (match flattenItems cb fuel sub (req.quantity * (a * m)) [] with
            | none => none
            | some (Except.error e) => some (Except.error e)
            | some (Except.ok subFlat) =>
              flattenItems cb fuel rest (a * m) (mergeFlat (scaleFlat m acc) subFlat)) =
            Option.map (Except.map (scaleFlat m))
              (match flattenItems cb fuel sub (req.quantity * a) [] with
              | none => none
              | some (Except.error e) => some (Except.error e)
              | some (Except.ok subFlat) => flattenItems cb fuel rest a (mergeFlat acc subFlat))
          have hsub := ih sub (req.quantity * a) []
          rw [show scaleFlat m [] = [] from rfl] at hsub
          rw [show req.quantity * (a * m) = (req.quantity * a) * m from by ring, hsub]
          cases hrec : flattenItems cb fuel sub (req.quantity * a) [] with
          | none => rfl
          | some r =>
            cases r with
            | error e => rfl
            | ok subFlat =>
              show flattenItems cb fuel rest (a * m) (mergeFlat (scaleFlat m acc) (scaleFlat m subFlat)) =
                Option.map (Except.map (scaleFlat m)) (flattenItems cb fuel rest a (mergeFlat acc subFlat))
              rw [mergeFlat_scale]
              exact ih rest a (mergeFlat acc subFlat)

/-- C7: for a recipe of the registry whose flattening with multiplier 1
succeeds, flattening with any positive multiplier `m` yields the same
accumulator with every quantity multiplied by `m`. -/
theorem flatten_multiplier_scales (cb : Cookbook) (key n : Json)
    (items : List RequiredItem) (fuel : Nat) (m : Int) (res : List (Json × Int))
    (hrec : lookupEntry cb key = some (.recipe n items))
    (hm : 0 < m)
    (hok : flattenItems cb fuel items 1 [] = some (.ok res)) :
    flattenItems cb fuel items m [] = some (.ok (scaleFlat m res)) := by
  have h := flattenItems_scale cb m fuel items 1 []
  rw [one_mul, show scaleFlat m [] = [] from rfl, hok] at h
  simpa [Except.map] using h

/-- C7 witness: a concrete recipe flattened with multiplier 2. -/
theorem flatten_multiplier_scales_witness :
    flattenItems [(Json.str "R", Entry.recipe (Json.str "R") [⟨"I", 2⟩]),
        (Json.str "I", Entry.ingredient (Json.str "I") 3)] 3 [⟨"I", 2⟩] 2 [] =
      some (.ok (scaleFlat 2 [(Json.str "I", 2)])) :=
  flatten_multiplier_scales
    [(Json.str "R", Entry.recipe (Json.str "R") [⟨"I", 2⟩]),
      (Json.str "I", Entry.ingredient (Json.str "I") 3)]
    (Json.str "R") (Json.str "R") [⟨"I", 2⟩] 3 2 [(Json.str "I", 2)]
    rfl (by decide) rfl

theorem flattenItems_ok_not_missing (cb : Cookbook) :
    ∀ (fuel : Nat) (items : List RequiredItem) (m : Int) (acc res : List (Json × Int)),
      flattenItems cb fuel items m acc = some (.ok res) →
      ¬ ReachesMissing cb items := by
  intro fuel
  induction fuel with
  | zero =>
    intro items m acc res h
    exact absurd h (by simp [flattenItems])
  | succ fuel ih =>
    intro items m acc res h hrm
    cases items with
    | nil =>
      cases hrm with
      | here req hmem hnone => simp at hmem
      | there req n sub hmem hlook hsub => simp at hmem
    | cons req rest =>
      rw [flattenItems] at h
      cases hl : lookupEntry cb (Json.str req.name) with
      | none =>
        rw [hl] at h
        simp at h
      | some e =>
        rw [hl] at h
        cases e with
        | ingredient iname ct =>
          have hrest : ¬ ReachesMissing cb rest := ih rest m _ res h
          cases hrm with
          | here req' hmem hnone =>
            rcases List.mem_cons.mp hmem with rfl | hmem2
            · rw [hl] at hnone
              exact Option.noConfusion hnone
            · exact hrest (ReachesMissing.here req' hmem2 hnone)
          | there req' n' sub' hmem hlook hsub =>
            rcases List.mem_cons.mp hmem with rfl | hmem2
            · rw [hl] at hlook
              injection hlook with he
              exact Entry.noConfusion he
            · exact hrest (ReachesMissing.there req' n' sub' hmem2 hlook hsub)
        | recipe n sub =>
          replace h : (match flattenItems cb fuel sub (req.quantity * m) [] with
            | none => none
            | some (Except.error e) => some (Except.error e)
            | some (Except.ok subFlat) =>
              flattenItems cb fuel rest m (mergeFlat acc subFlat)) = some (Except.ok res) := h
          cases hrec : flattenItems cb fuel sub (req.quantity * m) [] with
          | none =>
            rw [hrec] at h
            exact Option.noConfusion h
          | some r =>
            rw [hrec] at h
            cases r with
            | error e =>
              simp at h
            | ok subFlat =>
              have hsubok : ¬ ReachesMissing cb sub := ih sub (req.quantity * m) [] subFlat hrec
              have hrest : ¬ ReachesMissing cb rest := ih rest m _ res h
              cases hrm with
              | here req' hmem hnone =>
                rcases List.mem_cons.mp hmem with rfl | hmem2
                · rw [hl] at hnone
                  exact Option.noConfusion hnone
                · exact hrest (ReachesMissing.here req' hmem2 hnone)
              | there req' n' sub' hmem hlook hsub =>
                rcases List.mem_cons.mp hmem with rfl | hmem2
                · rw [hl] at hlook
                  injection hlook with he
                  injection he with he1 he2
                  subst he2
                  exact hsubok hsub
                · exact hrest (ReachesMissing.there req' n' sub' hmem2 hlook hsub)

/-- C9 (amended): whenever `GET /summary` produces a response for a recipe
that transitively requires a name absent from the registry, that response is
400 — a 200 summary is impossible. (The original universal 400 claim fails: a
cycle ahead of the missing name makes the code recurse without answering, see
the counterexample below.) -/
theorem missing_reference_summary_400 (cb : Cookbook) (rn : String) (n : Json)
    (items : List RequiredItem) (fuel : Nat) (res : Summary)
    (hlook : lookupEntry cb (.str rn) = some (.recipe n items))
    (hmiss : ReachesMissing cb items)
    (hres : get_summary cb (some rn) fuel = some res) :
    res = Summary.bad := by
  rw [get_summary] at hres
  by_cases hrn : rn = ""
  · rw [if_pos hrn] at hres
    exact (Option.some.inj hres).symm
  · rw [if_neg hrn, hlook] at hres
    replace hres : (match flattenItems cb fuel items 1 [] with
      | none => none
      | some (Except.error a) => some Summary.bad
      | some (Except.ok flat) =>
        match computeTotals cb flat 0 [] with
        | Except.error a => some Summary.bad
        | Except.ok (total, ings) => some (Summary.ok rn total ings)) = some res := hres
    cases hfl : flattenItems cb fuel items 1 [] with
    | none =>
      rw [hfl] at hres
      exact Option.noConfusion hres
    | some r =>
      rw [hfl] at hres
      cases r with
      | error e => exact (Option.some.inj hres).symm
      | ok flat => exact absurd hmiss (flattenItems_ok_not_missing cb fuel items 1 [] flat hfl)

/-- C9 counterexample: recipe `R` requiring `[R × 1, X × 1]` with `X` absent
is accepted by `POST /entry` (200), transitively requires a missing name, yet
`GET /summary?name=R` produces no response at any recursion budget: the
flattener recurses into `R` before ever reaching `X`, so the claimed 400 never
appears (CPython dies with a `RecursionError` the `except ValueError` does not
catch). -/
theorem cyclic_missing_reference_no_response :
    create_entry (Json.obj [("type", Json.str "recipe"), ("name", Json.str "R"),
      ("requiredItems", Json.arr [
        Json.obj [("name", Json.str "R"), ("quantity", Json.int 1)],
        Json.obj [("name", Json.str "X"), ("quantity", Json.int 1)]])]) [] =
      some (200, selfLoopCb) ∧
    lookupEntry selfLoopCb (Json.str "X") = none ∧
    ReachesMissing selfLoopCb [⟨"R", 1⟩, ⟨"X", 1⟩] ∧
    ∀ fuel : Nat, get_summary selfLoopCb (some "R") fuel = none := by
  refine ⟨rfl, rfl, ReachesMissing.here ⟨"X", 1⟩ (by simp) rfl, ?_⟩
  have hflat : ∀ (f : Nat) (m : Int) (acc : List (Json × Int)),
      flattenItems selfLoopCb f [⟨"R", 1⟩, ⟨"X", 1⟩] m acc = none := by
    intro f
    induction f with
    | zero => intro m acc; rfl
    | succ f ih =>
      intro m acc
      rw [flattenItems, show lookupEntry selfLoopCb (Json.str "R") =
        some (Entry.recipe (Json.str "R") [⟨"R", 1⟩, ⟨"X", 1⟩]) from rfl]
      show (match flattenItems selfLoopCb f [⟨"R", 1⟩, ⟨"X", 1⟩] ((1 : Int) * m) [] with
        | none => none
        | some (Except.error e) => some (Except.error e)
        | some (Except.ok subFlat) =>
          flattenItems selfLoopCb f [⟨"X", 1⟩] m (mergeFlat acc subFlat)) = none
      rw [ih (1 * m) []]
  intro fuel
  rw [get_summary, if_neg (by decide), show lookupEntry selfLoopCb (Json.str "R") =
    some (Entry.recipe (Json.str "R") [⟨"R", 1⟩, ⟨"X", 1⟩]) from rfl]
  show (match flattenItems selfLoopCb fuel [⟨"R", 1⟩, ⟨"X", 1⟩] (1 : Int) [] with
    | none => none
    | some (Except.error a) => some Summary.bad
    | some (Except.ok flat) =>
      match computeTotals selfLoopCb flat 0 [] with
      | Except.error a => some Summary.bad
      | Except.ok (total, ings) => some (Summary.ok "R" total ings)) = none
  rw [hflat fuel 1 []]

/-- C9 witness: a recipe requiring the absent name `X` summarizes to 400. -/
theorem missing_reference_summary_400_witness :
    lookupEntry [(Json.str "R", Entry.recipe (Json.str "R") [⟨"X", 1⟩])] (Json.str "R") =
      some (Entry.recipe (Json.str "R") [⟨"X", 1⟩]) ∧
    get_summary [(Json.str "R", Entry.recipe (Json.str "R") [⟨"X", 1⟩])] (some "R") 5 =
      some Summary.bad ∧
    Summary.bad = Summary.bad :=
  ⟨rfl, rfl,
    missing_reference_summary_400 [(Json.str "R", Entry.recipe (Json.str "R") [⟨"X", 1⟩])]
      "R" (Json.str "R") [⟨"X", 1⟩] 5 Summary.bad rfl
      (ReachesMissing.here ⟨"X", 1⟩ (by simp) rfl) rfl⟩

theorem flattenItems_mono (cb : Cookbook) :
    ∀ (fuel fuel' : Nat) (items : List RequiredItem) (m : Int)
      (acc : List (Json × Int)) (r : Except Unit (List (Json × Int))),
      fuel ≤ fuel' → flattenItems cb fuel items m acc = some r →
      flattenItems cb fuel' items m acc = some r := by
  intro fuel
  induction fuel with
  | zero =>
    intro fuel' items m acc r _ h
    exact absurd h (by simp [flattenItems])
  | succ fuel ih =>
    intro fuel' items m acc r hle h
    obtain ⟨f', rfl⟩ : ∃ f', fuel' = f' + 1 := by
      cases fuel' with
      | zero => omega
      | succ f' => exact ⟨f', rfl⟩
    have hle' : fuel ≤ f' := by omega
    cases items with
    | nil => exact h
    | cons req rest =>
      rw [flattenItems] at h ⊢
      cases hl : lookupEntry cb (Json.str req.name) with
      | none =>
        rw [hl] at h
        exact h
      | some e =>
        rw [hl] at h
        cases e with
        | ingredient iname ct => exact ih f' rest m _ r hle' h
        | recipe n sub =>
          replace h : (match flattenItems cb fuel sub (req.quantity * m) [] with
            | none => none
            | some (Except.error e) => some (Except.error e)
            | some (Except.ok subFlat) =>
              flattenItems cb fuel rest m (mergeFlat acc subFlat)) = some r := h
          show (match flattenItems cb f' sub (req.quantity * m) [] with
            | none => none
            | some (Except.error e) => some (Except.error e)
            | some (Except.ok subFlat) =>
              flattenItems cb f' rest m (mergeFlat acc subFlat)) = some r
          cases hrec : flattenItems cb fuel sub (req.quantity * m) [] with
          | none =>
            rw [hrec] at h
            exact Option.noConfusion h
          | some rs =>
            rw [hrec] at h
            rw [ih f' sub (req.quantity * m) [] rs hle' hrec]
            cases rs with
            | error e => exact h
            | ok subFlat => exact ih f' rest m (mergeFlat acc subFlat) r hle' h

theorem lookupEntry_mem (cb : Cookbook) (k : Json) (e : Entry) :
    lookupEntry cb k = some e → (k, e) ∈ cb := by
  induction cb with
  | nil =>
    intro h
    exact absurd h (by simp [lookupEntry])
  | cons p rest ih =>
    obtain ⟨k', e'⟩ := p
    intro h
    rw [lookupEntry] at h
    by_cases hk : k' = k
    · rw [if_pos hk] at h
      injection h with h2
      simp [hk, h2]
    · rw [if_neg hk] at h
      exact List.mem_cons_of_mem _ (ih h)

theorem lookup_recipe_mem_recipeKeys (cb : Cookbook) (a : String) (n : Json)
    (items : List RequiredItem)
    (h : lookupEntry cb (.str a) = some (.recipe n items)) : a ∈ recipeKeys cb := by
  have hm := lookupEntry_mem cb _ _ h
  unfold recipeKeys
  rw [List.mem_filterMap]
  exact ⟨(Json.str a, Entry.recipe n items), hm, rfl⟩

theorem nodup_subset_length_le {α : Type} [DecidableEq α] (l L : List α)
    (hnd : l.Nodup) (hsub : ∀ x ∈ l, x ∈ L) : l.length ≤ L.length := by
  have h1 : l.toFinset.card = l.length := List.toFinset_card_of_nodup hnd
  have h2 : l.toFinset ⊆ L.toFinset := by
    intro x hx
    rw [List.mem_toFinset] at hx ⊢
    exact hsub x hx
  calc l.length = l.toFinset.card := h1.symm
    _ ≤ L.toFinset.card := Finset.card_le_card h2
    _ ≤ L.length := L.toFinset_card_le

/-- Core of C10: along any descent of the flattener the visited recipe names
stay distinct (a repeat would close a cycle), so with acyclicity the number of
recipe keys bounds the depth and some fuel suffices. -/
theorem flatten_terminates_aux (cb : Cookbook) (hacyc : Acyclic cb) :
    ∀ (k : Nat) (visited : List String) (items : List RequiredItem),
      visited.Nodup →
      (∀ v ∈ visited, v ∈ recipeKeys cb) →
      (recipeKeys cb).length ≤ visited.length + k →
      (∀ req ∈ items, ∀ n sub,
        lookupEntry cb (.str req.name) = some (.recipe n sub) →
        ∀ v ∈ visited, Relation.TransGen (refsTo cb) v req.name) →
      ∃ fuel, ∀ (m : Int) (acc : List (Json × Int)),
        ∃ r, flattenItems cb fuel items m acc = some r := by
  intro k
  induction k using Nat.strong_induction_on with
  | _ k ihk =>
  intro visited items hnd hsub hlen hedge
  revert hedge
  induction items with
  | nil => exact fun _ => ⟨1, fun m acc => ⟨.ok acc, rfl⟩⟩
  | cons req rest ihr =>
    intro hedge
    obtain ⟨f₂, h₂⟩ := ihr (fun r hr => hedge r (List.mem_cons_of_mem _ hr))
    cases hl : lookupEntry cb (Json.str req.name) with
    | none =>
      refine ⟨1, fun m acc => ⟨.error (), ?_⟩⟩
      rw [flattenItems, hl]
    | some e =>
      cases e with
      | ingredient iname ct =>
        refine ⟨f₂ + 1, fun m acc => ?_⟩
        obtain ⟨r, hr⟩ := h₂ m (dictAdd acc iname (req.quantity * m))
        refine ⟨r, ?_⟩
        rw [flattenItems, hl]
        exact hr
      | recipe n sub =>
        have hmem : req.name ∈ recipeKeys cb := lookup_recipe_mem_recipeKeys cb _ n sub hl
        have hnotv : req.name ∉ visited := by
          intro hv
          exact hacyc req.name (hedge req (by simp) n sub hl req.name hv)
        have hnd' : (req.name :: visited).Nodup := List.nodup_cons.mpr ⟨hnotv, hnd⟩
        have hsub' : ∀ v ∈ req.name :: visited, v ∈ recipeKeys cb := by
          intro v hv
          rcases List.mem_cons.mp hv with rfl | hv2
          · exact hmem
          · exact hsub v hv2
        have hk1 : (req.name :: visited).length ≤ (recipeKeys cb).length :=
          nodup_subset_length_le _ _ hnd' hsub'
        obtain ⟨k', rfl⟩ : ∃ k', k = k' + 1 := by
          cases k with
          | zero =>
            exfalso
            simp only [List.length_cons] at hk1
            omega
          | succ k' => exact ⟨k', rfl⟩
        have hedge' : ∀ r2 ∈ sub, ∀ n2 sub2,
            lookupEntry cb (.str r2.name) = some (.recipe n2 sub2) →
            ∀ v ∈ req.name :: visited, Relation.TransGen (refsTo cb) v r2.name := by
          intro r2 hr2 n2 sub2 hl2 v hv
          have hstep : refsTo cb req.name r2.name := ⟨n, sub, hl, r2, hr2, rfl⟩
          rcases List.mem_cons.mp hv with rfl | hv2
          · exact Relation.TransGen.single hstep
          · exact Relation.TransGen.tail (hedge req (by simp) n sub hl v hv2) hstep
        obtain ⟨f₁, h₁⟩ := ihk k' (by omega) (req.name :: visited) sub hnd' hsub'
          (by simp only [List.length_cons]; omega) hedge'
        refine ⟨max f₁ f₂ + 1, fun m acc => ?_⟩
        obtain ⟨r₁, hr₁⟩ := h₁ (req.quantity * m) []
        have hr₁' := flattenItems_mono cb f₁ (max f₁ f₂) sub (req.quantity * m) [] r₁
          (le_max_left _ _) hr₁
        cases r₁ with
        | error e =>
          refine ⟨.error e, ?_⟩
          rw [flattenItems, hl]
          show (match flattenItems cb (max f₁ f₂) sub (req.quantity * m) [] with
            | none => none
            | some (Except.error e) => some (Except.error e)
            | some (Except.ok subFlat) =>
              flattenItems cb (max f₁ f₂) rest m (mergeFlat acc subFlat)) =
            some (Except.error e)
          rw [hr₁']
        | ok subFlat =>
          obtain ⟨r₂, hr₂⟩ := h₂ m (mergeFlat acc subFlat)
          have hr₂' := flattenItems_mono cb f₂ (max f₁ f₂) rest m (mergeFlat acc subFlat) r₂
            (le_max_right _ _) hr₂
          refine ⟨r₂, ?_⟩
          rw [flattenItems, hl]
          show (match flattenItems cb (max f₁ f₂) sub (req.quantity * m) [] with
            | none => none
            | some (Except.error e) => some (Except.error e)
            | some (Except.ok subFlat) =>
              flattenItems cb (max f₁ f₂) rest m (mergeFlat acc subFlat)) = some r₂
          rw [hr₁']
          exact hr₂'

/-- C10: in a registry whose recipe-reference graph is acyclic, flattening any
recipe of the registry terminates — some fuel makes the recursion finish for
every multiplier and accumulator. -/
theorem acyclic_flatten_terminates (cb : Cookbook) (rn : String) (n : Json)
    (items : List RequiredItem)
    (hacyc : Acyclic cb)
    (hlook : lookupEntry cb (.str rn) = some (.recipe n items)) :
    ∃ fuel, ∀ (m : Int) (acc : List (Json × Int)),
      flattenItems cb fuel items m acc ≠ none := by
  obtain ⟨fuel, hf⟩ := flatten_terminates_aux cb hacyc (recipeKeys cb).length [] items
    (by simp) (by simp) (by simp) (fun req hreq n2 sub2 hl2 v hv => absurd hv (by simp))
  refine ⟨fuel, fun m acc => ?_⟩
  obtain ⟨r, hr⟩ := hf m acc
  rw [hr]
  simp

/-- C10 witness: a registry with one childless recipe is acyclic and its
flattening terminates. -/
theorem acyclic_flatten_terminates_witness :
    Acyclic [(Json.str "R", Entry.recipe (Json.str "R") [])] ∧
    ∃ fuel, ∀ (m : Int) (acc : List (Json × Int)),
      flattenItems [(Json.str "R", Entry.recipe (Json.str "R") [])] fuel [] m acc ≠ none := by
  have hnoedge : ∀ a b : String,
      ¬ refsTo [(Json.str "R", Entry.recipe (Json.str "R") [])] a b := by
    rintro a b ⟨n, items, hl, req, hreq, -⟩
    rw [lookupEntry] at hl
    by_cases h : Json.str "R" = Json.str a
    · rw [if_pos h] at hl
      injection hl with h2
      injection h2 with h3 h4
      subst h4
      simp at hreq
    · rw [if_neg h] at hl
      exact Option.noConfusion hl
  have hacyc : Acyclic [(Json.str "R", Entry.recipe (Json.str "R") [])] := by
    intro a h
    cases h with
    | single h1 => exact hnoedge _ _ h1
    | tail h1 h2 => exact hnoedge _ _ h2
  exact ⟨hacyc, acyclic_flatten_terminates _ "R" (Json.str "R") [] hacyc rfl⟩

end Devdonalds
